import Mathlib

/-!
Verification of a single-expression compiler (9cc.c): tokenizer,
recursive-descent parser, and stack-machine code generator, embedded
shallowly.  Each definition mirrors the corresponding C function; the
parser's global token cursor becomes an explicit token-list argument,
and fatal calls to exit(1) become an Except error value carrying the
diagnostic offset and message.
-/

namespace NineCC

/-- TokenKind from the source: TK_RESERVED, TK_NUM, TK_EOF. -/
inductive TokenKind where
  | TK_RESERVED
  | TK_NUM
  | TK_EOF
deriving DecidableEq, Repr

/-- Token from the source.  The C field str is a pointer into user_input;
here it is split into the lexeme text (str) and the starting offset in
the input (pos, used by error_at). -/
structure Token where
  kind : TokenKind
  val : Int
  str : String
  len : Nat
  pos : Nat
deriving DecidableEq, Repr

/-- A fatal diagnostic: the offset error_at points the caret at, and the
message text. -/
structure Diag where
  pos : Nat
  msg : String
deriving DecidableEq, Repr

/-- Message printed by tokenize on a lexical error. -/
def lexMsg : String := "トークナイズできません"

/-- Message printed by expect_number. -/
def numMsg : String := "数ではありません"

/-- Message printed by expect.  The C source passes a char* to a %c
conversion (formally undefined); the evident intent, a quoted single
operator character, is modelled. -/
def expectMsg (op : String) : String :=
  match op.toList with
  | c :: _ => "'" ++ String.singleton c ++ "'ではありません"
  | [] => "''ではありません"

/-- C isspace over the characters it accepts: space, tab, newline,
vertical tab, form feed, carriage return. -/
def isspaceC (c : Char) : Bool :=
  c = ' ' || c = '\t' || c = '\n' || c = Char.ofNat 11 || c = Char.ofNat 12 || c = '\r'

/-- C isdigit: a decimal digit. -/
def isdigitC (c : Char) : Bool :=
  '0' ≤ c && c ≤ '9'

/-- The single-character operator set of strchr in tokenize. -/
def isSingleOp (c : Char) : Bool :=
  c = '+' || c = '-' || c = '*' || c = '/' || c = '(' || c = ')' || c = '<' || c = '>'

/-- startswith from the source: memcmp(p, q, strlen(q)) == 0, i.e. q is a
prefix of the remaining input (the terminating NUL of the C string makes
memcmp fail when fewer than strlen(q) characters remain). -/
def startswith (p q : List Char) : Bool :=
  q.isPrefixOf p

/-- The two-character operator heads tried first in tokenize:
startswith against ==, !=, <=, >=. -/
def twoCharB (c1 c2 : Char) : Bool :=
  (c1 = '=' && c2 = '=') || (c1 = '!' && c2 = '=') ||
  (c1 = '<' && c2 = '=') || (c1 = '>' && c2 = '=')

/-- Numeric value of a digit run, as strtol base 10 computes it. -/
def digitsVal (ds : List Char) : Int :=
  Int.ofNat (ds.foldl (fun a c => 10 * a + (c.toNat - '0'.toNat)) 0)

/-- Loop body of tokenize, scanning the remaining characters with the
current offset.  Mirrors the while loop of the C tokenize: skip spaces,
try two-character operators, then single-character operators, then a
digit run via strtol; any other character is a fatal lexical error at
its offset.  The trailing TK_EOF token is appended at end of input. -/
def tokenizeAux : List Char → Nat → Except Diag (List Token)
  | [], pos => .ok [⟨TokenKind.TK_EOF, 0, "", 0, pos⟩]
  | c :: cs, pos =>
    if isspaceC c then
      tokenizeAux cs (pos + 1)
    else if startswith (c :: cs) ['=', '='] || startswith (c :: cs) ['!', '='] ||
            startswith (c :: cs) ['<', '='] || startswith (c :: cs) ['>', '='] then
      match tokenizeAux (cs.drop 1) (pos + 2) with
      | .ok ts => .ok (⟨TokenKind.TK_RESERVED, 0, String.mk ((c :: cs).take 2), 2, pos⟩ :: ts)
      | .error d => .error d
    else if isSingleOp c then
      match tokenizeAux cs (pos + 1) with
      | .ok ts => .ok (⟨TokenKind.TK_RESERVED, 0, String.singleton c, 1, pos⟩ :: ts)
      | .error d => .error d
    else if isdigitC c then
      match tokenizeAux (cs.dropWhile isdigitC) (pos + (c :: cs.takeWhile isdigitC).length) with
      | .ok ts =>
        .ok (⟨TokenKind.TK_NUM, digitsVal (c :: cs.takeWhile isdigitC),
              String.mk (c :: cs.takeWhile isdigitC),
              (c :: cs.takeWhile isdigitC).length, pos⟩ :: ts)
      | .error d => .error d
    else
      .error ⟨pos, lexMsg⟩
  termination_by cs _ => cs.length
  decreasing_by
  · simp only [List.length_cons]; omega
  · simp only [List.length_cons, List.length_drop]; omega
  · simp only [List.length_cons]; omega
  · simp only [List.length_cons]
    exact Nat.lt_of_le_of_lt (List.IsSuffix.length_le (List.dropWhile_suffix isdigitC)) (by omega)

/-- tokenize from the source: scan the whole input from offset 0. -/
def tokenize (s : String) : Except Diag (List Token) :=
  tokenizeAux s.toList 0

/-- NodeKind from the source: eight binary operators and ND_NUM. -/
inductive NodeKind where
  | ND_ADD
  | ND_SUB
  | ND_MUL
  | ND_DIV
  | ND_EQ
  | ND_NE
  | ND_LT
  | ND_LE
  | ND_NUM
deriving DecidableEq, Repr

/-- Node from the source.  lhs and rhs are nullable pointers in C, hence
Option here; val is meaningful only for ND_NUM. -/
inductive Node where
  | mk (kind : NodeKind) (lhs : Option Node) (rhs : Option Node) (val : Int)

/-- new_node from the source: calloc zeroes lhs, rhs and val. -/
def new_node (kind : NodeKind) : Node :=
  Node.mk kind none none 0

/-- new_binary from the source. -/
def new_binary (kind : NodeKind) (lhs rhs : Node) : Node :=
  Node.mk kind (some lhs) (some rhs) 0

/-- new_num from the source. -/
def new_num (val : Int) : Node :=
  Node.mk NodeKind.ND_NUM none none val

/-- consume from the source.  The global token cursor becomes an explicit
token list; the returned list is the cursor after the call (advanced by
one token on a match, unchanged otherwise). -/
def consume (op : String) (ts : List Token) : Bool × List Token :=
  match ts with
  | [] => (false, [])
  | t :: rest =>
    if t.kind = TokenKind.TK_RESERVED ∧ op.length = t.len ∧ t.str = op then
      (true, rest)
    else
      (false, t :: rest)

/-- expect from the source: require a reserved token with lexeme op, else
a fatal syntax error at the current token's offset. -/
def expect (op : String) (ts : List Token) : Except Diag (List Token) :=
  match ts with
  | [] => .error ⟨0, expectMsg op⟩
  | t :: rest =>
    if t.kind = TokenKind.TK_RESERVED ∧ op.length = t.len ∧ t.str = op then
      .ok rest
    else
      .error ⟨t.pos, expectMsg op⟩

/-- expect_number from the source: require a TK_NUM token and return its
value, else a fatal syntax error at the current token's offset. -/
def expect_number (ts : List Token) : Except Diag (Int × List Token) :=
  match ts with
  | [] => .error ⟨0, numMsg⟩
  | t :: rest =>
    if t.kind = TokenKind.TK_NUM then
      .ok (t.val, rest)
    else
      .error ⟨t.pos, numMsg⟩

/-- at_eof from the source. -/
def at_eof (ts : List Token) : Bool :=
  match ts with
  | t :: _ => t.kind = TokenKind.TK_EOF
  | [] => false

/-- Diagnostic produced only when the explicit recursion fuel runs out;
the C original recurses without fuel and no input that terminates there
reaches this case. -/
def fuelDiag : Diag :=
  ⟨0, "fuel"⟩

mutual

/-- expr from the source: expr = equality. -/
def expr : Nat → List Token → Except Diag (Node × List Token)
  | 0, _ => .error fuelDiag
  | f + 1, ts => equality f ts

/-- equality from the source: relational followed by the == / != fold. -/
def equality : Nat → List Token → Except Diag (Node × List Token)
  | 0, _ => .error fuelDiag
  | f + 1, ts =>
    match relational f ts with
    | .error d => .error d
    | .ok (node, ts1) => equalityLoop f node ts1

/-- The for loop of equality: left-fold over == and != operators. -/
def equalityLoop : Nat → Node → List Token → Except Diag (Node × List Token)
  | 0, _, _ => .error fuelDiag
  | f + 1, node, ts =>
    match consume "==" ts with
    | (true, ts1) =>
      match relational f ts1 with
      | .error d => .error d
      | .ok (m, ts2) => equalityLoop f (new_binary NodeKind.ND_EQ node m) ts2
    | (false, _) =>
      match consume "!=" ts with
      | (true, ts1) =>
        match relational f ts1 with
        | .error d => .error d
        | .ok (m, ts2) => equalityLoop f (new_binary NodeKind.ND_NE node m) ts2
      | (false, _) => .ok (node, ts)

/-- relational from the source: add followed by the < <= > >= fold. -/
def relational : Nat → List Token → Except Diag (Node × List Token)
  | 0, _ => .error fuelDiag
  | f + 1, ts =>
    match add f ts with
    | .error d => .error d
    | .ok (node, ts1) => relationalLoop f node ts1

/-- The for loop of relational.  The > and >= branches build ND_LT and
ND_LE nodes with the freshly parsed operand on the left: a > b becomes
Lt(b, a) and a >= b becomes Le(b, a). -/
def relationalLoop : Nat → Node → List Token → Except Diag (Node × List Token)
  | 0, _, _ => .error fuelDiag
  | f + 1, node, ts =>
    match consume "<" ts with
    | (true, ts1) =>
      match add f ts1 with
      | .error d => .error d
      | .ok (m, ts2) => relationalLoop f (new_binary NodeKind.ND_LT node m) ts2
    | (false, _) =>
      match consume "<=" ts with
      | (true, ts1) =>
        match add f ts1 with
        | .error d => .error d
        | .ok (m, ts2) => relationalLoop f (new_binary NodeKind.ND_LE node m) ts2
      | (false, _) =>
        match consume ">" ts with
        | (true, ts1) =>
          match add f ts1 with
          | .error d => .error d
          | .ok (m, ts2) => relationalLoop f (new_binary NodeKind.ND_LT m node) ts2
        | (false, _) =>
          match consume ">=" ts with
          | (true, ts1) =>
            match add f ts1 with
            | .error d => .error d
            | .ok (m, ts2) => relationalLoop f (new_binary NodeKind.ND_LE m node) ts2
          | (false, _) => .ok (node, ts)

/-- add from the source: mul followed by the + - fold. -/
def add : Nat → List Token → Except Diag (Node × List Token)
  | 0, _ => .error fuelDiag
  | f + 1, ts =>
    match mul f ts with
    | .error d => .error d
    | .ok (node, ts1) => addLoop f node ts1

/-- The for loop of add: left-fold over + and - operators. -/
def addLoop : Nat → Node → List Token → Except Diag (Node × List Token)
  | 0, _, _ => .error fuelDiag
  | f + 1, node, ts =>
    match consume "+" ts with
    | (true, ts1) =>
      match mul f ts1 with
      | .error d => .error d
      | .ok (m, ts2) => addLoop f (new_binary NodeKind.ND_ADD node m) ts2
    | (false, _) =>
      match consume "-" ts with
      | (true, ts1) =>
        match mul f ts1 with
        | .error d => .error d
        | .ok (m, ts2) => addLoop f (new_binary NodeKind.ND_SUB node m) ts2
      | (false, _) => .ok (node, ts)

/-- mul from the source: unary followed by the * / fold. -/
def mul : Nat → List Token → Except Diag (Node × List Token)
  | 0, _ => .error fuelDiag
  | f + 1, ts =>
    match unary f ts with
    | .error d => .error d
    | .ok (node, ts1) => mulLoop f node ts1

/-- The for loop of mul: left-fold over * and / operators. -/
def mulLoop : Nat → Node → List Token → Except Diag (Node × List Token)
  | 0, _, _ => .error fuelDiag
  | f + 1, node, ts =>
    match consume "*" ts with
    | (true, ts1) =>
      match unary f ts1 with
      | .error d => .error d
      | .ok (m, ts2) => mulLoop f (new_binary NodeKind.ND_MUL node m) ts2
    | (false, _) =>
      match consume "/" ts with
      | (true, ts1) =>
        match unary f ts1 with
        | .error d => .error d
        | .ok (m, ts2) => mulLoop f (new_binary NodeKind.ND_DIV node m) ts2
      | (false, _) => .ok (node, ts)

/-- unary from the source: a leading + is discarded, a leading - turns
-x into Sub(Num(0), x), otherwise primary. -/
def unary : Nat → List Token → Except Diag (Node × List Token)
  | 0, _ => .error fuelDiag
  | f + 1, ts =>
    match consume "+" ts with
    | (true, ts1) => primary f ts1
    | (false, _) =>
      match consume "-" ts with
      | (true, ts1) =>
        match primary f ts1 with
        | .error d => .error d
        | .ok (p, ts2) => .ok (new_binary NodeKind.ND_SUB (new_num 0) p, ts2)
      | (false, _) => primary f ts

/-- primary from the source: a parenthesized expr or a number. -/
def primary : Nat → List Token → Except Diag (Node × List Token)
  | 0, _ => .error fuelDiag
  | f + 1, ts =>
    match consume "(" ts with
    | (true, ts1) =>
      match expr f ts1 with
      | .error d => .error d
      | .ok (node, ts2) =>
        match expect ")" ts2 with
        | .error d => .error d
        | .ok ts3 => .ok (node, ts3)
    | (false, _) =>
      match expect_number ts with
      | .error d => .error d
      | .ok (v, ts1) => .ok (new_num v, ts1)

end

/-- One emitted assembly instruction.  Each constructor corresponds to
one printf line of gen and of main's epilogue; cmp and cset are kept as
separate instructions, with the flags modelled as the pair of compared
values. -/
inductive Instr where
  | mov2 (v : Int)
  | pushX2
  | popX1
  | popX0
  | addI
  | subI
  | mulI
  | sdivI
  | cmpI
  | csetEQ
  | csetNE
  | csetLT
  | csetLE
  | pushX0
deriving DecidableEq, Repr

/-- The instructions of the switch statement in gen, per node kind.
ND_NUM never reaches the switch. -/
def opInstrs : NodeKind → List Instr
  | NodeKind.ND_ADD => [Instr.addI]
  | NodeKind.ND_SUB => [Instr.subI]
  | NodeKind.ND_MUL => [Instr.mulI]
  | NodeKind.ND_DIV => [Instr.sdivI]
  | NodeKind.ND_EQ => [Instr.cmpI, Instr.csetEQ]
  | NodeKind.ND_NE => [Instr.cmpI, Instr.csetNE]
  | NodeKind.ND_LT => [Instr.cmpI, Instr.csetLT]
  | NodeKind.ND_LE => [Instr.cmpI, Instr.csetLE]
  | NodeKind.ND_NUM => []

/-- gen from the source, as the instruction sequence it prints.  A number
pushes its literal via x2; a binary node emits the code of both children,
pops the right operand into x1 and the left into x0, applies the
operation, and pushes x0.  The C gen dereferences lhs and rhs without a
null check; a null child (impossible for parser output) is modelled as
returning none. -/
def gen : Node → Option (List Instr)
  | Node.mk NodeKind.ND_NUM _ _ v => some [Instr.mov2 v, Instr.pushX2]
  | Node.mk k lhs rhs _ =>
    match lhs, rhs with
    | some l, some r =>
      match gen l, gen r with
      | some li, some ri =>
        some (li ++ ri ++ [Instr.popX1, Instr.popX0] ++ opInstrs k ++ [Instr.pushX0])
      | _, _ => none
    | _, _ => none

/-- Machine state for the emitted assembly: the three registers used,
the runtime stack, and the NZCV flags abstracted as the operand pair of
the last cmp. -/
structure MState where
  x0 : Int
  x1 : Int
  x2 : Int
  stack : List Int
  cmp : Option (Int × Int)
deriving DecidableEq, Repr

/-- Truncating signed division as the sdiv instruction computes it;
AArch64 sdiv yields 0 on division by zero. -/
def sdiv64 (a b : Int) : Int :=
  if b = 0 then 0 else Int.tdiv a b

/-- Effect of one instruction.  Popping an empty stack faults (none);
cset without a preceding cmp reads undefined flags and also faults. -/
def step : Instr → MState → Option MState
  | Instr.mov2 v, s => some { s with x2 := v }
  | Instr.pushX2, s => some { s with stack := s.x2 :: s.stack }
  | Instr.pushX0, s => some { s with stack := s.x0 :: s.stack }
  | Instr.popX1, s =>
    match s.stack with
    | v :: st => some { s with x1 := v, stack := st }
    | [] => none
  | Instr.popX0, s =>
    match s.stack with
    | v :: st => some { s with x0 := v, stack := st }
    | [] => none
  | Instr.addI, s => some { s with x0 := s.x0 + s.x1 }
  | Instr.subI, s => some { s with x0 := s.x0 - s.x1 }
  | Instr.mulI, s => some { s with x0 := s.x0 * s.x1 }
  | Instr.sdivI, s => some { s with x0 := sdiv64 s.x0 s.x1 }
  | Instr.cmpI, s => some { s with cmp := some (s.x0, s.x1) }
  | Instr.csetEQ, s =>
    match s.cmp with
    | some (a, b) => some { s with x0 := if a = b then 1 else 0 }
    | none => none
  | Instr.csetNE, s =>
    match s.cmp with
    | some (a, b) => some { s with x0 := if a = b then 0 else 1 }
    | none => none
  | Instr.csetLT, s =>
    match s.cmp with
    | some (a, b) => some { s with x0 := if a < b then 1 else 0 }
    | none => none
  | Instr.csetLE, s =>
    match s.cmp with
    | some (a, b) => some { s with x0 := if a ≤ b then 1 else 0 }
    | none => none

/-- Run a list of instructions from a state. -/
def run : List Instr → MState → Option MState
  | [], s => some s
  | i :: is, s =>
    match step i s with
    | some s1 => run is s1
    | none => none

/-- The machine state at entry of main's generated code. -/
def initState : MState :=
  ⟨0, 0, 0, [], none⟩

/-- Reference meaning of one binary operator, the specification side of
the correctness claim.  Modelled from the spec: truncating signed
integer division (undefined on a zero divisor, hence none there) and
comparisons yielding exactly 0 or 1. -/
def specEvalOp (k : NodeKind) (a b : Int) : Option Int :=
  match k with
  | NodeKind.ND_ADD => some (a + b)
  | NodeKind.ND_SUB => some (a - b)
  | NodeKind.ND_MUL => some (a * b)
  | NodeKind.ND_DIV => if b = 0 then none else some (Int.tdiv a b)
  | NodeKind.ND_EQ => some (if a = b then 1 else 0)
  | NodeKind.ND_NE => some (if a = b then 0 else 1)
  | NodeKind.ND_LT => some (if a < b then 1 else 0)
  | NodeKind.ND_LE => some (if a ≤ b then 1 else 0)
  | NodeKind.ND_NUM => none

/-- Reference evaluator over ASTs, the specification side of the
correctness claim.  Modelled from the spec evaluation order: both
children evaluate left to right, then the operator applies.  A node with
a missing child has no value. -/
def specEval : Node → Option Int
  | Node.mk NodeKind.ND_NUM _ _ v => some v
  | Node.mk k lhs rhs _ =>
    match lhs, rhs with
    | some l, some r =>
      match specEval l, specEval r with
      | some a, some b => specEvalOp k a b
      | _, _ => none
    | _, _ => none

/-- The text of one instruction exactly as gen and main print it
(including the single-space indentation quirk of the mul line). -/
def instrText : Instr → String
  | Instr.mov2 v => "  mov x2, #" ++ toString v ++ "\n"
  | Instr.pushX2 => "  str x2, [sp, -16]!\n"
  | Instr.popX1 => "  ldr x1, [sp], 16\n"
  | Instr.popX0 => "  ldr x0, [sp], 16\n"
  | Instr.addI => "  add x0, x0, x1\n"
  | Instr.subI => "  sub x0, x0, x1\n"
  | Instr.mulI => " mul x0, x0, x1\n"
  | Instr.sdivI => "  sdiv x0, x0, x1\n"
  | Instr.cmpI => "  cmp x0, x1\n"
  | Instr.csetEQ => "  cset x0, EQ\n"
  | Instr.csetNE => "  cset x0, NE\n"
  | Instr.csetLT => "  cset x0, LT\n"
  | Instr.csetLE => "  cset x0, LE\n"
  | Instr.pushX0 => "  str x0, [sp, -16]!\n"

/-- String of n spaces. -/
def spaces (n : Nat) : String :=
  String.mk (List.replicate n ' ')

/-- printf %*s right-justification: pad s with leading spaces up to
field width w (a shorter width prints s unchanged). -/
def padWidth (w : Nat) (s : String) : String :=
  if s.length < w then spaces (w - s.length) ++ s else s

/-- error_at from the source: the input line, then a caret line produced
by the %*s padding of the one-character string " ", then "^ " and the
message. -/
def error_at (input : String) (pos : Nat) (msg : String) : String :=
  input ++ "\n" ++ padWidth pos " " ++ "^ " ++ msg ++ "\n"

/-- Fuel that is always sufficient for the token list at hand: parsing
consumes a token before every loop iteration, and the call chain between
two consumed tokens has bounded depth. -/
def fuelFor (ts : List Token) : Nat :=
  8 * ts.length + 8

/-- The front half of main: tokenize the argument and parse one
expression, returning its root.  The remaining token list is discarded
without an at_eof check, exactly as in the source. -/
def compileNode (s : String) : Except Diag Node :=
  match tokenize s with
  | .error d => .error d
  | .ok ts =>
    match expr (fuelFor ts) ts with
    | .error d => .error d
    | .ok (node, _) => .ok node

/-- The full assembly listing printed on success: prologue, the gen
output, and main's final pop and ret. -/
def progText (is : List Instr) : String :=
  ".globl main\nmain:\n" ++ String.join (is.map instrText) ++
    "  ldr x0, [sp], 16\n" ++ "  ret\n"

/-- The observable behaviour of one run of main on the given argument:
exit code, standard output, standard error.  On any fatal diagnostic the
program exits 1 with only the error_at rendering on stderr; otherwise it
exits 0 with only the listing on stdout.  The none result of gen cannot
occur for parser output; it is rendered as a diagnostic here only to
keep the function total. -/
def driverRun (s : String) : Nat × String × String :=
  match compileNode s with
  | .error d => (1, "", error_at s d.pos d.msg)
  | .ok node =>
    match gen node with
    | some is => (0, progText is, "")
    | none => (1, "", error_at s 0 "codegen")

/-- The integer a shell observes after running the emitted assembly:
execute the gen instructions and main's final pop from the initial
state and read x0. -/
def runProgram (s : String) : Option Int :=
  match compileNode s with
  | .error _ => none
  | .ok node =>
    match gen node with
    | none => none
    | some is =>
      match run (is ++ [Instr.popX0]) initState with
      | some fin => some fin.x0
      | none => none

/-- The AST shape invariant stated in the specification: only ND_NUM
nodes are leaves (their children are null), and every other node has
both children non-null. -/
def wfB : Node → Bool
  | Node.mk NodeKind.ND_NUM lhs rhs _ => lhs.isNone && rhs.isNone
  | Node.mk _ lhs rhs _ =>
    match lhs, rhs with
    | some l, some r => wfB l && wfB r
    | _, _ => false

/-- The value the pop-op-push block of gen leaves in x0 for a binary
node kind, with the left operand in x0 and the right in x1. -/
def binOpVal (k : NodeKind) (a b : Int) : Int :=
  match k with
  | NodeKind.ND_ADD => a + b
  | NodeKind.ND_SUB => a - b
  | NodeKind.ND_MUL => a * b
  | NodeKind.ND_DIV => sdiv64 a b
  | NodeKind.ND_EQ => if a = b then 1 else 0
  | NodeKind.ND_NE => if a = b then 0 else 1
  | NodeKind.ND_LT => if a < b then 1 else 0
  | NodeKind.ND_LE => if a ≤ b then 1 else 0
  | NodeKind.ND_NUM => 0

/-- A scan position at which tokenize must fail: the head character is
not whitespace, starts no two-character operator here, is no
single-character operator, and is no digit. -/
def badStartB : List Char → Bool
  | [] => false
  | c :: cs =>
    !(isspaceC c) &&
    !(startswith (c :: cs) ['=', '='] || startswith (c :: cs) ['!', '='] ||
      startswith (c :: cs) ['<', '='] || startswith (c :: cs) ['>', '=']) &&
    !(isSingleOp c) && !(isdigitC c)

/-- Running a concatenation runs the two halves in sequence. -/
theorem run_append (a b : List Instr) (s : MState) :
    run (a ++ b) s = Option.bind (run a s) (fun s1 => run b s1) := by
  induction a generalizing s with
  | nil => simp [run]
  | cons i a ih =>
    simp only [List.cons_append, run]
    cases hstep : step i s with
    | none => rfl
    | some s1 => exact ih s1

/-- The pop-op-push block of gen consumes exactly the two topmost stack
values (right above left) and pushes binOpVal, leaving the rest of the
stack untouched. -/
theorem run_binop (k : NodeKind) (hk : k ≠ NodeKind.ND_NUM) (x0 x1 x2 a b : Int)
    (st : List Int) (c : Option (Int × Int)) :
    ∃ s', run ([Instr.popX1, Instr.popX0] ++ opInstrs k ++ [Instr.pushX0])
        ⟨x0, x1, x2, b :: a :: st, c⟩ = some s' ∧
      s'.stack = binOpVal k a b :: st := by
  cases k <;> simp [run, step, opInstrs, binOpVal] at hk ⊢

/-- Code emitted by gen always terminates, has a net stack effect of
exactly one pushed value, and that value agrees with the reference
evaluator whenever the latter is defined. -/
theorem gen_run (n : Node) (is : List Instr) (h : gen n = some is) (s : MState) :
    ∃ s' v, run is s = some s' ∧ s'.stack = v :: s.stack ∧
      (∀ w, specEval n = some w → v = w) := by
  cases n with
  | mk k lhs rhs v =>
    cases hknum : decide (k = NodeKind.ND_NUM) with
    | true =>
      have hk : k = NodeKind.ND_NUM := of_decide_eq_true hknum
      subst hk
      simp only [gen] at h
      cases h
      refine ⟨{ s with x2 := v, stack := v :: s.stack }, v, ?_, rfl, ?_⟩
      · simp [run, step]
      · intro w hw
        simp only [specEval] at hw
        cases hw
        rfl
    | false =>
      have hk : k ≠ NodeKind.ND_NUM := of_decide_eq_false hknum
      cases lhs with
      | none => cases k <;> simp [gen] at h hk
      | some l =>
        cases rhs with
        | none => cases k <;> simp [gen] at h hk
        | some r =>
          have hgen : gen (Node.mk k (some l) (some r) v) =
              match gen l, gen r with
              | some li, some ri =>
                some (li ++ ri ++ [Instr.popX1, Instr.popX0] ++ opInstrs k ++ [Instr.pushX0])
              | _, _ => none := by
            cases k <;> simp [gen] at hk ⊢
          rw [hgen] at h
          cases hl : gen l with
          | none => rw [hl] at h; cases hr : gen r <;> rw [hr] at h <;> cases h
          | some li =>
            cases hr : gen r with
            | none => rw [hl, hr] at h; cases h
            | some ri =>
              rw [hl, hr] at h
              cases h
              obtain ⟨s1, vl, hrun1, hst1, hv1⟩ := gen_run l li hl s
              obtain ⟨s2, vr, hrun2, hst2, hv2⟩ := gen_run r ri hr s1
              rw [hst1] at hst2
              obtain ⟨x02, x12, x22, st2, c2⟩ := s2
              simp only at hst2
              subst hst2
              obtain ⟨s3, hrun3, hst3⟩ :=
                run_binop k hk x02 x12 x22 vl vr s.stack c2
              refine ⟨s3, binOpVal k vl vr, ?_, hst3, ?_⟩
              · have hsplit : li ++ ri ++ [Instr.popX1, Instr.popX0] ++ opInstrs k ++ [Instr.pushX0]
                    = li ++ (ri ++ ([Instr.popX1, Instr.popX0] ++ opInstrs k ++ [Instr.pushX0])) := by
                  simp
                rw [hsplit, run_append, hrun1, Option.some_bind, run_append, hrun2,
                  Option.some_bind]
                exact hrun3
              · intro w hw
                have hev : specEval (Node.mk k (some l) (some r) v) =
                    match specEval l, specEval r with
                    | some ea, some eb => specEvalOp k ea eb
                    | _, _ => none := by
                  cases k <;> simp [specEval] at hk ⊢
                rw [hev] at hw
                cases hel : specEval l with
                | none => rw [hel] at hw; cases her : specEval r <;> rw [her] at hw <;> cases hw
                | some ea =>
                  cases her : specEval r with
                  | none => rw [hel, her] at hw; cases hw
                  | some eb =>
                    rw [hel, her] at hw
                    dsimp only at hw
                    have hvl : vl = ea := hv1 ea hel
                    have hvr : vr = eb := hv2 eb her
                    subst hvl hvr
                    cases k with
                    | ND_ADD => simp only [specEvalOp] at hw; cases hw; simp [binOpVal]
                    | ND_SUB => simp only [specEvalOp] at hw; cases hw; simp [binOpVal]
                    | ND_MUL => simp only [specEvalOp] at hw; cases hw; simp [binOpVal]
                    | ND_DIV =>
                      simp only [specEvalOp] at hw
                      by_cases hb : vr = 0
                      · rw [if_pos hb] at hw; cases hw
                      · rw [if_neg hb] at hw
                        cases hw
                        simp [binOpVal, sdiv64, hb]
                    | ND_EQ => simp only [specEvalOp] at hw; cases hw; simp [binOpVal]
                    | ND_NE => simp only [specEvalOp] at hw; cases hw; simp [binOpVal]
                    | ND_LT => simp only [specEvalOp] at hw; cases hw; simp [binOpVal]
                    | ND_LE => simp only [specEvalOp] at hw; cases hw; simp [binOpVal]
                    | ND_NUM => exact absurd rfl hk
  termination_by sizeOf n

/-- new_num always builds a well-formed leaf. -/
theorem wfB_new_num (v : Int) : wfB (new_num v) = true := by
  simp [new_num, wfB]

/-- new_binary with a non-ND_NUM kind is well-formed exactly when both
children are. -/
theorem wfB_new_binary (k : NodeKind) (hk : k ≠ NodeKind.ND_NUM) (l r : Node) :
    wfB (new_binary k l r) = (wfB l && wfB r) := by
  cases k <;> simp [new_binary, wfB] at hk ⊢

/-- gen succeeds on every well-formed tree. -/
theorem wf_gen_total (n : Node) (h : wfB n = true) : ∃ is, gen n = some is := by
  cases n with
  | mk k lhs rhs v =>
    cases hknum : decide (k = NodeKind.ND_NUM) with
    | true =>
      have hk := of_decide_eq_true hknum
      subst hk
      exact ⟨[Instr.mov2 v, Instr.pushX2], by simp [gen]⟩
    | false =>
      have hk := of_decide_eq_false hknum
      cases lhs with
      | none => cases k <;> simp [wfB] at h hk
      | some l =>
        cases rhs with
        | none => cases k <;> simp [wfB] at h hk
        | some r =>
          have hlr : wfB l = true ∧ wfB r = true := by
            cases k <;> simp [wfB] at h hk <;> exact h
          obtain ⟨li, hli⟩ := wf_gen_total l hlr.1
          obtain ⟨ri, hri⟩ := wf_gen_total r hlr.2
          refine ⟨li ++ ri ++ [Instr.popX1, Instr.popX0] ++ opInstrs k ++ [Instr.pushX0], ?_⟩
          have hgen : gen (Node.mk k (some l) (some r) v) =
              match gen l, gen r with
              | some li, some ri =>
                some (li ++ ri ++ [Instr.popX1, Instr.popX0] ++ opInstrs k ++ [Instr.pushX0])
              | _, _ => none := by
            cases k <;> simp [gen] at hk ⊢
          rw [hgen, hli, hri]
  termination_by sizeOf n

/-- A token that consume and expect accept for the operator op. -/
def isOpTok (t : Token) (op : String) : Prop :=
  t.kind = TokenKind.TK_RESERVED ∧ op.length = t.len ∧ t.str = op

/-- consume succeeds on a matching head token and advances past it. -/
theorem consume_pos (op : String) (t : Token) (ts : List Token) (h : isOpTok t op) :
    consume op (t :: ts) = (true, ts) := by
  unfold isOpTok at h
  simp only [consume]
  rw [if_pos h]

/-- consume fails without moving when the head lexeme differs. -/
theorem consume_neg_str (op : String) (t : Token) (ts : List Token) (h : t.str ≠ op) :
    consume op (t :: ts) = (false, t :: ts) := by
  simp only [consume]
  rw [if_neg]
  rintro ⟨-, -, h3⟩
  exact h h3

/-- A successful consume exposes the matching head token. -/
theorem consume_true_elim (op : String) (ts ts1 : List Token)
    (h : consume op ts = (true, ts1)) : ∃ t, ts = t :: ts1 ∧ isOpTok t op := by
  cases ts with
  | nil => simp [consume] at h
  | cons t rest =>
    by_cases hc : t.kind = TokenKind.TK_RESERVED ∧ op.length = t.len ∧ t.str = op
    · simp only [consume] at h
      rw [if_pos hc] at h
      cases h
      exact ⟨t, rfl, hc⟩
    · simp only [consume] at h
      rw [if_neg hc] at h
      simp at h

/-- When none of the four comparison operators is next, the relational
loop stops and returns its accumulated node and cursor unchanged. -/
theorem relationalLoop_stop (f : Nat) (n : Node) (ts : List Token)
    (h1 : (consume "<" ts).1 = false) (h2 : (consume "<=" ts).1 = false)
    (h3 : (consume ">" ts).1 = false) (h4 : (consume ">=" ts).1 = false) :
    relationalLoop (f + 1) n ts = .ok (n, ts) := by
  simp only [relationalLoop]
  rcases hc1 : consume "<" ts with ⟨b1, l1⟩
  rw [hc1] at h1
  simp only at h1
  subst h1
  dsimp only
  rcases hc2 : consume "<=" ts with ⟨b2, l2⟩
  rw [hc2] at h2
  simp only at h2
  subst h2
  dsimp only
  rcases hc3 : consume ">" ts with ⟨b3, l3⟩
  rw [hc3] at h3
  simp only at h3
  subst h3
  dsimp only
  rcases hc4 : consume ">=" ts with ⟨b4, l4⟩
  rw [hc4] at h4
  simp only at h4
  subst h4
  dsimp only

/-- The %*s padding of the one-character string " " yields max pos 1
spaces: the intended pos spaces for pos at least 1, but one space, not
zero, when pos is 0. -/
theorem padWidth_space (p : Nat) : padWidth p " " = spaces (max p 1) := by
  unfold padWidth
  have h1 : (" " : String).length = 1 := rfl
  rw [h1]
  by_cases h : 1 < p
  · rw [if_pos h]
    have hmax : max p 1 = p := by omega
    rw [hmax]
    show spaces (p - 1) ++ " " = spaces p
    unfold spaces
    have hsp : (" " : String) = String.mk [' '] := rfl
    rw [hsp]
    have happ : String.mk (List.replicate (p - 1) ' ') ++ String.mk [' ']
        = String.mk (List.replicate (p - 1) ' ' ++ [' ']) := rfl
    rw [happ]
    have hrep : List.replicate (p - 1) ' ' ++ [' '] = List.replicate p ' ' := by
      have hp : p - 1 + 1 = p := by omega
      rw [← List.replicate_succ' (p - 1) ' ', hp]
    rw [hrep]
  · rw [if_neg h]
    have hmax : max p 1 = 1 := by omega
    rw [hmax]
    rfl

/-- The rendered diagnostic, written with the caret position explicit. -/
theorem error_at_spaces (input : String) (p : Nat) (m : String) :
    error_at input p m = input ++ "\n" ++ spaces (max p 1) ++ "^ " ++ m ++ "\n" := by
  unfold error_at
  rw [padWidth_space]

/-- Concrete lexer runs used by the scenario conjuncts below. -/
theorem tokenize_1plus2star3 : tokenize "1+2*3" = .ok
    [⟨TokenKind.TK_NUM, 1, "1", 1, 0⟩, ⟨TokenKind.TK_RESERVED, 0, "+", 1, 1⟩,
     ⟨TokenKind.TK_NUM, 2, "2", 1, 2⟩, ⟨TokenKind.TK_RESERVED, 0, "*", 1, 3⟩,
     ⟨TokenKind.TK_NUM, 3, "3", 1, 4⟩, ⟨TokenKind.TK_EOF, 0, "", 0, 5⟩] := by
  simp [tokenize, tokenizeAux, isspaceC, startswith, isSingleOp, isdigitC, digitsVal]
  all_goals decide

/-- Lexer run for the parenthesized scenario. -/
theorem tokenize_paren : tokenize "(1+2)*3" = .ok
    [⟨TokenKind.TK_RESERVED, 0, "(", 1, 0⟩, ⟨TokenKind.TK_NUM, 1, "1", 1, 1⟩,
     ⟨TokenKind.TK_RESERVED, 0, "+", 1, 2⟩, ⟨TokenKind.TK_NUM, 2, "2", 1, 3⟩,
     ⟨TokenKind.TK_RESERVED, 0, ")", 1, 4⟩, ⟨TokenKind.TK_RESERVED, 0, "*", 1, 5⟩,
     ⟨TokenKind.TK_NUM, 3, "3", 1, 6⟩, ⟨TokenKind.TK_EOF, 0, "", 0, 7⟩] := by
  simp [tokenize, tokenizeAux, isspaceC, startswith, isSingleOp, isdigitC, digitsVal]
  all_goals decide

/-- Lexer run for the division scenario. -/
theorem tokenize_10div3 : tokenize "10/3" = .ok
    [⟨TokenKind.TK_NUM, 10, "10", 2, 0⟩, ⟨TokenKind.TK_RESERVED, 0, "/", 1, 2⟩,
     ⟨TokenKind.TK_NUM, 3, "3", 1, 3⟩, ⟨TokenKind.TK_EOF, 0, "", 0, 4⟩] := by
  simp [tokenize, tokenizeAux, isspaceC, startswith, isSingleOp, isdigitC, digitsVal]
  all_goals decide

/-- Lexer run for the equality scenario. -/
theorem tokenize_1eq1 : tokenize "1==1" = .ok
    [⟨TokenKind.TK_NUM, 1, "1", 1, 0⟩, ⟨TokenKind.TK_RESERVED, 0, "==", 2, 1⟩,
     ⟨TokenKind.TK_NUM, 1, "1", 1, 3⟩, ⟨TokenKind.TK_EOF, 0, "", 0, 4⟩] := by
  simp [tokenize, tokenizeAux, isspaceC, startswith, isSingleOp, isdigitC, digitsVal]

/-- Lexer run for the disequality scenario. -/
theorem tokenize_1ne1 : tokenize "1!=1" = .ok
    [⟨TokenKind.TK_NUM, 1, "1", 1, 0⟩, ⟨TokenKind.TK_RESERVED, 0, "!=", 2, 1⟩,
     ⟨TokenKind.TK_NUM, 1, "1", 1, 3⟩, ⟨TokenKind.TK_EOF, 0, "", 0, 4⟩] := by
  simp [tokenize, tokenizeAux, isspaceC, startswith, isSingleOp, isdigitC, digitsVal]

/-- Lexer run for the unary-minus scenario. -/
theorem tokenize_neg5plus3 : tokenize "-5+3" = .ok
    [⟨TokenKind.TK_RESERVED, 0, "-", 1, 0⟩, ⟨TokenKind.TK_NUM, 5, "5", 1, 1⟩,
     ⟨TokenKind.TK_RESERVED, 0, "+", 1, 2⟩, ⟨TokenKind.TK_NUM, 3, "3", 1, 3⟩,
     ⟨TokenKind.TK_EOF, 0, "", 0, 4⟩] := by
  simp [tokenize, tokenizeAux, isspaceC, startswith, isSingleOp, isdigitC, digitsVal]
  all_goals decide

/-- Lexer run for the trailing-token scenario: two numbers in a row. -/
theorem tokenize_one_two : tokenize "1 2" = .ok
    [⟨TokenKind.TK_NUM, 1, "1", 1, 0⟩, ⟨TokenKind.TK_NUM, 2, "2", 1, 2⟩,
     ⟨TokenKind.TK_EOF, 0, "", 0, 3⟩] := by
  simp [tokenize, tokenizeAux, isspaceC, startswith, isSingleOp, isdigitC, digitsVal]

/-- Lexer run for the lexical-error scenario: a letter at offset 0. -/
theorem tokenize_letter : tokenize "a" = .error ⟨0, lexMsg⟩ := by
  simp [tokenize, tokenizeAux, isspaceC, startswith, isSingleOp, isdigitC, digitsVal]

/-- Lexer run for the two-character-operator scenario. -/
theorem tokenize_1le2 : tokenize "1<=2" = .ok
    [⟨TokenKind.TK_NUM, 1, "1", 1, 0⟩, ⟨TokenKind.TK_RESERVED, 0, "<=", 2, 1⟩,
     ⟨TokenKind.TK_NUM, 2, "2", 1, 3⟩, ⟨TokenKind.TK_EOF, 0, "", 0, 4⟩] := by
  simp [tokenize, tokenizeAux, isspaceC, startswith, isSingleOp, isdigitC, digitsVal]

/-- Lexer run used by the idempotence witness. -/
theorem tokenize_1plus2 : tokenize "1+2" = .ok
    [⟨TokenKind.TK_NUM, 1, "1", 1, 0⟩, ⟨TokenKind.TK_RESERVED, 0, "+", 1, 1⟩,
     ⟨TokenKind.TK_NUM, 2, "2", 1, 2⟩, ⟨TokenKind.TK_EOF, 0, "", 0, 3⟩] := by
  simp [tokenize, tokenizeAux, isspaceC, startswith, isSingleOp, isdigitC, digitsVal]
  all_goals decide

/-- Every parsing function returns only well-formed trees; the loop
variants preserve well-formedness of the accumulated left operand.
Proved by induction on the fuel, mirroring the mutual recursion. -/
theorem parsers_wf : ∀ f : Nat,
    (∀ ts n r, expr f ts = .ok (n, r) → wfB n = true) ∧
    (∀ ts n r, equality f ts = .ok (n, r) → wfB n = true) ∧
    (∀ a ts n r, wfB a = true → equalityLoop f a ts = .ok (n, r) → wfB n = true) ∧
    (∀ ts n r, relational f ts = .ok (n, r) → wfB n = true) ∧
    (∀ a ts n r, wfB a = true → relationalLoop f a ts = .ok (n, r) → wfB n = true) ∧
    (∀ ts n r, add f ts = .ok (n, r) → wfB n = true) ∧
    (∀ a ts n r, wfB a = true → addLoop f a ts = .ok (n, r) → wfB n = true) ∧
    (∀ ts n r, mul f ts = .ok (n, r) → wfB n = true) ∧
    (∀ a ts n r, wfB a = true → mulLoop f a ts = .ok (n, r) → wfB n = true) ∧
    (∀ ts n r, unary f ts = .ok (n, r) → wfB n = true) ∧
    (∀ ts n r, primary f ts = .ok (n, r) → wfB n = true) := by
  intro f
  induction f with
  | zero =>
    refine ⟨?_, ?_, ?_, ?_, ?_, ?_, ?_, ?_, ?_, ?_, ?_⟩ <;> intros <;>
      simp [expr, equality, equalityLoop, relational, relationalLoop, add, addLoop,
        mul, mulLoop, unary, primary] at *
  | succ f ih =>
    obtain ⟨ihe, ihq, ihql, ihr, ihrl, iha, ihal, ihm, ihml, ihu, ihp⟩ := ih
    refine ⟨?_, ?_, ?_, ?_, ?_, ?_, ?_, ?_, ?_, ?_, ?_⟩
    · intro ts n r h
      exact ihq ts n r h
    · intro ts n r h
      simp only [equality] at h
      cases hrel : relational f ts with
      | error d => rw [hrel] at h; cases h
      | ok p =>
        obtain ⟨n0, ts0⟩ := p
        rw [hrel] at h
        exact ihql n0 ts0 n r (ihr ts n0 ts0 hrel) h
    · intro a ts n r ha h
      simp only [equalityLoop] at h
      rcases hc1 : consume "==" ts with ⟨b1, ts1⟩
      rw [hc1] at h
      cases b1 with
      | true =>
        dsimp only at h
        cases hrel : relational f ts1 with
        | error d => rw [hrel] at h; cases h
        | ok p =>
          obtain ⟨m, ts2⟩ := p
          rw [hrel] at h
          refine ihql (new_binary NodeKind.ND_EQ a m) ts2 n r ?_ h
          rw [wfB_new_binary NodeKind.ND_EQ (by simp) a m]
          simp [ha, ihr ts1 m ts2 hrel]
      | false =>
        dsimp only at h
        rcases hc2 : consume "!=" ts with ⟨b2, ts2⟩
        rw [hc2] at h
        cases b2 with
        | true =>
          dsimp only at h
          cases hrel : relational f ts2 with
          | error d => rw [hrel] at h; cases h
          | ok p =>
            obtain ⟨m, ts3⟩ := p
            rw [hrel] at h
            refine ihql (new_binary NodeKind.ND_NE a m) ts3 n r ?_ h
            rw [wfB_new_binary NodeKind.ND_NE (by simp) a m]
            simp [ha, ihr ts2 m ts3 hrel]
        | false =>
          dsimp only at h
          cases h
          exact ha
    · intro ts n r h
      simp only [relational] at h
      cases hadd : add f ts with
      | error d => rw [hadd] at h; cases h
      | ok p =>
        obtain ⟨n0, ts0⟩ := p
        rw [hadd] at h
        exact ihrl n0 ts0 n r (iha ts n0 ts0 hadd) h
    · intro a ts n r ha h
      simp only [relationalLoop] at h
      rcases hc1 : consume "<" ts with ⟨b1, ts1⟩
      rw [hc1] at h
      cases b1 with
      | true =>
        dsimp only at h
        cases hadd : add f ts1 with
        | error d => rw [hadd] at h; cases h
        | ok p =>
          obtain ⟨m, ts2⟩ := p
          rw [hadd] at h
          refine ihrl (new_binary NodeKind.ND_LT a m) ts2 n r ?_ h
          rw [wfB_new_binary NodeKind.ND_LT (by simp) a m]
          simp [ha, iha ts1 m ts2 hadd]
      | false =>
        dsimp only at h
        rcases hc2 : consume "<=" ts with ⟨b2, ts2⟩
        rw [hc2] at h
        cases b2 with
        | true =>
          dsimp only at h
          cases hadd : add f ts2 with
          | error d => rw [hadd] at h; cases h
          | ok p =>
            obtain ⟨m, ts3⟩ := p
            rw [hadd] at h
            refine ihrl (new_binary NodeKind.ND_LE a m) ts3 n r ?_ h
            rw [wfB_new_binary NodeKind.ND_LE (by simp) a m]
            simp [ha, iha ts2 m ts3 hadd]
        | false =>
          dsimp only at h
          rcases hc3 : consume ">" ts with ⟨b3, ts3⟩
          rw [hc3] at h
          cases b3 with
          | true =>
            dsimp only at h
            cases hadd : add f ts3 with
            | error d => rw [hadd] at h; cases h
            | ok p =>
              obtain ⟨m, ts4⟩ := p
              rw [hadd] at h
              refine ihrl (new_binary NodeKind.ND_LT m a) ts4 n r ?_ h
              rw [wfB_new_binary NodeKind.ND_LT (by simp) m a]
              simp [ha, iha ts3 m ts4 hadd]
          | false =>
            dsimp only at h
            rcases hc4 : consume ">=" ts with ⟨b4, ts4⟩
            rw [hc4] at h
            cases b4 with
            | true =>
              dsimp only at h
              cases hadd : add f ts4 with
              | error d => rw [hadd] at h; cases h
              | ok p =>
                obtain ⟨m, ts5⟩ := p
                rw [hadd] at h
                refine ihrl (new_binary NodeKind.ND_LE m a) ts5 n r ?_ h
                rw [wfB_new_binary NodeKind.ND_LE (by simp) m a]
                simp [ha, iha ts4 m ts5 hadd]
            | false =>
              dsimp only at h
              cases h
              exact ha
    · intro ts n r h
      simp only [add] at h
      cases hmul : mul f ts with
      | error d => rw [hmul] at h; cases h
      | ok p =>
        obtain ⟨n0, ts0⟩ := p
        rw [hmul] at h
        exact ihal n0 ts0 n r (ihm ts n0 ts0 hmul) h
    · intro a ts n r ha h
      simp only [addLoop] at h
      rcases hc1 : consume "+" ts with ⟨b1, ts1⟩
      rw [hc1] at h
      cases b1 with
      | true =>
        dsimp only at h
        cases hmul : mul f ts1 with
        | error d => rw [hmul] at h; cases h
        | ok p =>
          obtain ⟨m, ts2⟩ := p
          rw [hmul] at h
          refine ihal (new_binary NodeKind.ND_ADD a m) ts2 n r ?_ h
          rw [wfB_new_binary NodeKind.ND_ADD (by simp) a m]
          simp [ha, ihm ts1 m ts2 hmul]
      | false =>
        dsimp only at h
        rcases hc2 : consume "-" ts with ⟨b2, ts2⟩
        rw [hc2] at h
        cases b2 with
        | true =>
          dsimp only at h
          cases hmul : mul f ts2 with
          | error d => rw [hmul] at h; cases h
          | ok p =>
            obtain ⟨m, ts3⟩ := p
            rw [hmul] at h
            refine ihal (new_binary NodeKind.ND_SUB a m) ts3 n r ?_ h
            rw [wfB_new_binary NodeKind.ND_SUB (by simp) a m]
            simp [ha, ihm ts2 m ts3 hmul]
        | false =>
          dsimp only at h
          cases h
          exact ha
    · intro ts n r h
      simp only [mul] at h
      cases hun : unary f ts with
      | error d => rw [hun] at h; cases h
      | ok p =>
        obtain ⟨n0, ts0⟩ := p
        rw [hun] at h
        exact ihml n0 ts0 n r (ihu ts n0 ts0 hun) h
    · intro a ts n r ha h
      simp only [mulLoop] at h
      rcases hc1 : consume "*" ts with ⟨b1, ts1⟩
      rw [hc1] at h
      cases b1 with
      | true =>
        dsimp only at h
        cases hun : unary f ts1 with
        | error d => rw [hun] at h; cases h
        | ok p =>
          obtain ⟨m, ts2⟩ := p
          rw [hun] at h
          refine ihml (new_binary NodeKind.ND_MUL a m) ts2 n r ?_ h
          rw [wfB_new_binary NodeKind.ND_MUL (by simp) a m]
          simp [ha, ihu ts1 m ts2 hun]
      | false =>
        dsimp only at h
        rcases hc2 : consume "/" ts with ⟨b2, ts2⟩
        rw [hc2] at h
        cases b2 with
        | true =>
          dsimp only at h
          cases hun : unary f ts2 with
          | error d => rw [hun] at h; cases h
          | ok p =>
            obtain ⟨m, ts3⟩ := p
            rw [hun] at h
            refine ihml (new_binary NodeKind.ND_DIV a m) ts3 n r ?_ h
            rw [wfB_new_binary NodeKind.ND_DIV (by simp) a m]
            simp [ha, ihu ts2 m ts3 hun]
        | false =>
          dsimp only at h
          cases h
          exact ha
    · intro ts n r h
      simp only [unary] at h
      rcases hc1 : consume "+" ts with ⟨b1, ts1⟩
      rw [hc1] at h
      cases b1 with
      | true => exact ihp ts1 n r h
      | false =>
        dsimp only at h
        rcases hc2 : consume "-" ts with ⟨b2, ts2⟩
        rw [hc2] at h
        cases b2 with
        | true =>
          dsimp only at h
          cases hp : primary f ts2 with
          | error d => rw [hp] at h; cases h
          | ok p =>
            obtain ⟨m, ts3⟩ := p
            rw [hp] at h
            cases h
            rw [wfB_new_binary NodeKind.ND_SUB (by simp) (new_num 0) m]
            simp [wfB_new_num, ihp _ _ _ hp]
        | false => exact ihp ts n r h
    · intro ts n r h
      simp only [primary] at h
      rcases hc1 : consume "(" ts with ⟨b1, ts1⟩
      rw [hc1] at h
      cases b1 with
      | true =>
        dsimp only at h
        cases he : expr f ts1 with
        | error d => rw [he] at h; cases h
        | ok p =>
          obtain ⟨m, ts2⟩ := p
          rw [he] at h
          dsimp only at h
          cases hx : expect ")" ts2 with
          | error d => rw [hx] at h; cases h
          | ok ts3 =>
            rw [hx] at h
            cases h
            exact ihe ts1 n ts2 he
      | false =>
        dsimp only at h
        cases hn : expect_number ts with
        | error d => rw [hn] at h; cases h
        | ok p =>
          obtain ⟨v, ts1⟩ := p
          rw [hn] at h
          cases h
          exact wfB_new_num v

/-- A successfully compiled root is a tree the parser returned, hence
well formed. -/
theorem compileNode_ok_wf (s : String) (node : Node) (h : compileNode s = .ok node) :
    wfB node = true := by
  simp only [compileNode] at h
  cases ht : tokenize s with
  | error d => rw [ht] at h; cases h
  | ok toks =>
    rw [ht] at h
    dsimp only at h
    cases he : expr (fuelFor toks) toks with
    | error d => rw [he] at h; cases h
    | ok p =>
      obtain ⟨n0, rest⟩ := p
      rw [he] at h
      dsimp only at h
      cases h
      exact (parsers_wf (fuelFor toks)).1 toks node rest he

/-- A digit character is neither whitespace, nor a single-character
operator, nor the head of any two-character operator. -/
theorem digit_guards (c : Char) (h : isdigitC c = true) :
    isspaceC c = false ∧ isSingleOp c = false ∧
    (('=' == c) = false) ∧ (('!' == c) = false) ∧
    (('<' == c) = false) ∧ (('>' == c) = false) := by
  have hne : ∀ d : Char, isdigitC d = false → ¬(c = d) := by
    intro d hd heq
    rw [heq] at h
    rw [h] at hd
    cases hd
  refine ⟨?_, ?_, ?_, ?_, ?_, ?_⟩
  · simp [isspaceC, hne ' ' (by decide), hne '\t' (by decide), hne '\n' (by decide),
      hne (Char.ofNat 11) (by decide), hne (Char.ofNat 12) (by decide), hne '\r' (by decide)]
  · simp [isSingleOp, hne '+' (by decide), hne '-' (by decide), hne '*' (by decide),
      hne '/' (by decide), hne '(' (by decide), hne ')' (by decide), hne '<' (by decide),
      hne '>' (by decide)]
  · simp only [beq_eq_false_iff_ne, ne_eq]
    exact fun e => hne '=' (by decide) e.symm
  · simp only [beq_eq_false_iff_ne, ne_eq]
    exact fun e => hne '!' (by decide) e.symm
  · simp only [beq_eq_false_iff_ne, ne_eq]
    exact fun e => hne '<' (by decide) e.symm
  · simp only [beq_eq_false_iff_ne, ne_eq]
    exact fun e => hne '>' (by decide) e.symm

/-- When the two-character test of tokenize fires, a second character is
present and it is the equals sign. -/
theorem twochar_shape (c : Char) (cs : List Char)
    (h : (startswith (c :: cs) ['=', '='] || startswith (c :: cs) ['!', '='] ||
          startswith (c :: cs) ['<', '='] || startswith (c :: cs) ['>', '=']) = true) :
    ∃ c2 cs2, cs = c2 :: cs2 ∧ c2 = '=' := by
  cases cs with
  | nil =>
    exfalso
    simp [startswith, List.isPrefixOf] at h
  | cons c2 cs2 =>
    refine ⟨c2, cs2, rfl, ?_⟩
    simp [startswith, List.isPrefixOf] at h
    rcases h with ((⟨-, h⟩ | ⟨-, h⟩) | ⟨-, h⟩) | ⟨-, h⟩ <;> exact h.symm

/-- Appending a token in front preserves a known last element. -/
theorem getLast?_cons_of_some (x : Token) (l : List Token) (t : Token)
    (h : l.getLast? = some t) : (x :: l).getLast? = some t := by
  cases l with
  | nil => simp at h
  | cons y l2 =>
    rw [List.getLast?_cons_cons]
    exact h

/-- dropWhile is the drop of the takeWhile length. -/
theorem dropWhile_eq_drop_takeWhile (p : Char → Bool) (l : List Char) :
    l.dropWhile p = l.drop (l.takeWhile p).length := by
  induction l with
  | nil => rfl
  | cons x xs ih =>
    by_cases hx : p x = true
    · rw [List.dropWhile_cons, if_pos hx, List.takeWhile_cons, if_pos hx]
      simpa using ih
    · rw [List.dropWhile_cons, if_neg hx, List.takeWhile_cons, if_neg hx]
      rfl

/-- The first character surviving dropWhile fails the predicate. -/
theorem dropWhile_head_not (l : List Char) (c2 : Char)
    (h : (l.dropWhile isdigitC).head? = some c2) : isdigitC c2 = false := by
  induction l with
  | nil => simp [List.dropWhile] at h
  | cons x xs ih =>
    rw [List.dropWhile_cons] at h
    by_cases hx : isdigitC x = true
    · rw [if_pos hx] at h
      exact ih h
    · rw [if_neg hx] at h
      simp at h
      rw [← h]
      cases hb : isdigitC x with
      | false => rfl
      | true => exact absurd hb hx

/-- A boolean hypothesis stated as a negation, as a false equation. -/
theorem bool_eq_false {b : Bool} (h : ¬b = true) : b = false := by
  cases b with
  | false => rfl
  | true => exact absurd rfl h

/-- Exhaustive behaviour of the tokenize scan: either it succeeds and
the token list ends with the TK_EOF sentinel positioned at the end of
the remaining input, or it fails with the lexical-error message at the
offset of a reachable character that starts no token. -/
theorem tokenizeAux_cases (cs : List Char) (pos : Nat) :
    (∃ toks last, tokenizeAux cs pos = .ok toks ∧ toks.getLast? = some last ∧
      last.kind = TokenKind.TK_EOF ∧ last.pos = pos + cs.length ∧ last.len = 0) ∨
    (∃ i, tokenizeAux cs pos = .error ⟨pos + i, lexMsg⟩ ∧ i < cs.length ∧
      badStartB (cs.drop i) = true) := by
  induction cs, pos using tokenizeAux.induct with
  | case1 pos =>
    left
    refine ⟨[⟨TokenKind.TK_EOF, 0, "", 0, pos⟩], ⟨TokenKind.TK_EOF, 0, "", 0, pos⟩,
      ?_, ?_, rfl, rfl, rfl⟩
    · simp [tokenizeAux]
    · simp
  | case2 c cs pos h1 ih =>
    have heq : tokenizeAux (c :: cs) pos = tokenizeAux cs (pos + 1) := by
      simp only [tokenizeAux]
      rw [if_pos h1]
    rcases ih with ⟨toks, last, hok, hl, hk, hp, hlen⟩ | ⟨i, herr, hi, hbad⟩
    · left
      refine ⟨toks, last, ?_, hl, hk, ?_, hlen⟩
      · rw [heq]
        exact hok
      · rw [hp, List.length_cons]
        omega
    · right
      refine ⟨i + 1, ?_, ?_, ?_⟩
      · rw [heq, herr]
        have harith : pos + 1 + i = pos + (i + 1) := by omega
        rw [harith]
      · simp only [List.length_cons]
        omega
      · rw [List.drop_succ_cons]
        exact hbad
  | case3 c cs pos hsp h2 ts hrec ih =>
    obtain ⟨c2, cs2, rfl, -⟩ := twochar_shape c cs h2
    have hdrop : List.drop 1 (c2 :: cs2) = cs2 := rfl
    rw [hdrop] at hrec ih
    have heq : tokenizeAux (c :: c2 :: cs2) pos =
        .ok (⟨TokenKind.TK_RESERVED, 0, String.mk [c, c2], 2, pos⟩ :: ts) := by
      simp only [tokenizeAux]
      rw [if_neg hsp, if_pos h2, hdrop, hrec]
      rfl
    rcases ih with ⟨toks, last, hok, hl, hk, hp, hlen⟩ | ⟨i, herr, hi, hbad⟩
    · rw [hok] at hrec
      cases hrec
      left
      refine ⟨_, last, heq, getLast?_cons_of_some _ _ _ hl, hk, ?_, hlen⟩
      rw [hp]
      simp only [List.length_cons]
      omega
    · rw [herr] at hrec
      cases hrec
  | case4 c cs pos hsp h2 d hrec ih =>
    obtain ⟨c2, cs2, rfl, -⟩ := twochar_shape c cs h2
    have hdrop : List.drop 1 (c2 :: cs2) = cs2 := rfl
    rw [hdrop] at hrec ih
    rcases ih with ⟨toks, last, hok, hl, hk, hp, hlen⟩ | ⟨i, herr, hi, hbad⟩
    · rw [hok] at hrec
      cases hrec
    · right
      have heq : tokenizeAux (c :: c2 :: cs2) pos = .error ⟨pos + 2 + i, lexMsg⟩ := by
        simp only [tokenizeAux]
        rw [if_neg hsp, if_pos h2, hdrop, herr]
      refine ⟨2 + i, ?_, ?_, ?_⟩
      · rw [heq]
        have harith : pos + 2 + i = pos + (2 + i) := by omega
        rw [harith]
      · simp only [List.length_cons]
        omega
      · have hstep : List.drop (2 + i) (c :: c2 :: cs2) = List.drop i cs2 := by
          have h21 : 2 + i = i + 1 + 1 := by omega
          rw [h21, List.drop_succ_cons, List.drop_succ_cons]
        rw [hstep]
        exact hbad
  | case5 c cs pos hsp h2 h3 ts hrec ih =>
    have heq : tokenizeAux (c :: cs) pos =
        .ok (⟨TokenKind.TK_RESERVED, 0, String.singleton c, 1, pos⟩ :: ts) := by
      simp only [tokenizeAux]
      rw [if_neg hsp, if_neg h2, if_pos h3, hrec]
    rcases ih with ⟨toks, last, hok, hl, hk, hp, hlen⟩ | ⟨i, herr, hi, hbad⟩
    · rw [hok] at hrec
      cases hrec
      left
      refine ⟨_, last, heq, getLast?_cons_of_some _ _ _ hl, hk, ?_, hlen⟩
      rw [hp]
      simp only [List.length_cons]
      omega
    · rw [herr] at hrec
      cases hrec
  | case6 c cs pos hsp h2 h3 d hrec ih =>
    rcases ih with ⟨toks, last, hok, hl, hk, hp, hlen⟩ | ⟨i, herr, hi, hbad⟩
    · rw [hok] at hrec
      cases hrec
    · right
      have heq : tokenizeAux (c :: cs) pos = .error ⟨pos + 1 + i, lexMsg⟩ := by
        simp only [tokenizeAux]
        rw [if_neg hsp, if_neg h2, if_pos h3, herr]
      refine ⟨1 + i, ?_, ?_, ?_⟩
      · rw [heq]
        have harith : pos + 1 + i = pos + (1 + i) := by omega
        rw [harith]
      · simp only [List.length_cons]
        omega
      · have h11 : 1 + i = i + 1 := by omega
        rw [h11, List.drop_succ_cons]
        exact hbad
  | case7 c cs pos hsp h2 h3 h4 ts hrec ih =>
    have htwdw : (cs.takeWhile isdigitC).length + (cs.dropWhile isdigitC).length
        = cs.length := by
      have hh := congrArg List.length (List.takeWhile_append_dropWhile isdigitC cs)
      rw [List.length_append] at hh
      exact hh
    have heq : tokenizeAux (c :: cs) pos =
        .ok (⟨TokenKind.TK_NUM, digitsVal (c :: cs.takeWhile isdigitC),
              String.mk (c :: cs.takeWhile isdigitC),
              (c :: cs.takeWhile isdigitC).length, pos⟩ :: ts) := by
      simp only [tokenizeAux]
      rw [if_neg hsp, if_neg h2, if_neg h3, if_pos h4, hrec]
    rcases ih with ⟨toks, last, hok, hl, hk, hp, hlen⟩ | ⟨i, herr, hi, hbad⟩
    · rw [hok] at hrec
      cases hrec
      left
      refine ⟨_, last, heq, getLast?_cons_of_some _ _ _ hl, hk, ?_, hlen⟩
      rw [hp]
      simp only [List.length_cons]
      omega
    · rw [herr] at hrec
      cases hrec
  | case8 c cs pos hsp h2 h3 h4 d hrec ih =>
    have htwdw : (cs.takeWhile isdigitC).length + (cs.dropWhile isdigitC).length
        = cs.length := by
      have hh := congrArg List.length (List.takeWhile_append_dropWhile isdigitC cs)
      rw [List.length_append] at hh
      exact hh
    rcases ih with ⟨toks, last, hok, hl, hk, hp, hlen⟩ | ⟨i, herr, hi, hbad⟩
    · rw [hok] at hrec
      cases hrec
    · right
      have heq : tokenizeAux (c :: cs) pos =
          .error ⟨pos + (c :: cs.takeWhile isdigitC).length + i, lexMsg⟩ := by
        simp only [tokenizeAux]
        rw [if_neg hsp, if_neg h2, if_neg h3, if_pos h4, herr]
      refine ⟨(c :: cs.takeWhile isdigitC).length + i, ?_, ?_, ?_⟩
      · rw [heq]
        have harith : pos + (c :: cs.takeWhile isdigitC).length + i
            = pos + ((c :: cs.takeWhile isdigitC).length + i) := by omega
        rw [harith]
      · simp only [List.length_cons] at hi ⊢
        omega
      · have hstep : List.drop ((c :: cs.takeWhile isdigitC).length + i) (c :: cs)
            = List.drop i (cs.dropWhile isdigitC) := by
          simp only [List.length_cons]
          have h1 : (cs.takeWhile isdigitC).length + 1 + i
              = ((cs.takeWhile isdigitC).length + i) + 1 := by omega
          rw [h1, List.drop_succ_cons]
          rw [dropWhile_eq_drop_takeWhile]
          rw [List.drop_drop]
        rw [hstep]
        exact hbad
  | case9 c cs pos hsp h2 h3 h4 =>
    right
    refine ⟨0, ?_, ?_, ?_⟩
    · have heq : tokenizeAux (c :: cs) pos = .error ⟨pos, lexMsg⟩ := by
        simp only [tokenizeAux]
        rw [if_neg hsp, if_neg h2, if_neg h3, if_neg h4]
      rw [heq]
      have harith : pos + 0 = pos := by omega
      rw [harith]
    · simp
    · simp only [List.drop_zero, badStartB]
      rw [bool_eq_false hsp, bool_eq_false h2, bool_eq_false h3, bool_eq_false h4]
      rfl

/-- C1: for every expression the compiler accepts, executing the emitted
assembly leaves on the stack, and after the driver's final pop in x0,
exactly the value of the expression under standard evaluation
(truncating signed division, comparisons yielding 0 or 1); in
particular 1+2*3 returns 7, (1+2)*3 returns 9, 10/3 returns 3, 1==1
returns 1, 1!=1 returns 0, and -5+3 returns -2. -/
theorem c1_generated_code_computes_standard_evaluation :
    (∀ (n : Node) (is : List Instr) (v : Int) (s : MState),
        gen n = some is → specEval n = some v →
        ∃ s', run is s = some s' ∧ s'.stack = v :: s.stack) ∧
    (∀ (n : Node) (is : List Instr) (v : Int),
        gen n = some is → specEval n = some v →
        ∃ s', run (is ++ [Instr.popX0]) initState = some s' ∧ s'.x0 = v) ∧
    runProgram "1+2*3" = some 7 ∧
    runProgram "(1+2)*3" = some 9 ∧
    runProgram "10/3" = some 3 ∧
    runProgram "1==1" = some 1 ∧
    runProgram "1!=1" = some 0 ∧
    runProgram "-5+3" = some (-2) := by
  refine ⟨?_, ?_, ?_, ?_, ?_, ?_, ?_, ?_⟩
  · intro n is v s hg he
    obtain ⟨s', w, hrun, hst, himp⟩ := gen_run n is hg s
    rw [himp v he] at hst
    exact ⟨s', hrun, hst⟩
  · intro n is v hg he
    obtain ⟨s', w, hrun, hst, himp⟩ := gen_run n is hg initState
    rw [himp v he] at hst
    have hst2 : s'.stack = [v] := hst
    refine ⟨{ s' with x0 := v, stack := [] }, ?_, rfl⟩
    rw [run_append, hrun, Option.some_bind]
    simp [run, step, hst2]
  · have h := tokenize_1plus2star3
    simp only [runProgram, compileNode, h]
    decide
  · have h := tokenize_paren
    simp only [runProgram, compileNode, h]
    decide
  · have h := tokenize_10div3
    simp only [runProgram, compileNode, h]
    decide
  · have h := tokenize_1eq1
    simp only [runProgram, compileNode, h]
    decide
  · have h := tokenize_1ne1
    simp only [runProgram, compileNode, h]
    decide
  · have h := tokenize_neg5plus3
    simp only [runProgram, compileNode, h]
    decide

/-- Witness for C1: the compiled code for 1+2 ends with 3 in x0. -/
theorem c1_witness :
    ∃ s', run ([Instr.mov2 1, Instr.pushX2, Instr.mov2 2, Instr.pushX2, Instr.popX1,
        Instr.popX0, Instr.addI, Instr.pushX0] ++ [Instr.popX0]) initState = some s' ∧
      s'.x0 = 3 :=
  c1_generated_code_computes_standard_evaluation.2.1
    (new_binary NodeKind.ND_ADD (new_num 1) (new_num 2)) _ 3 rfl rfl

/-- C9: code emitted by gen for any subtree has a net runtime-stack
effect of exactly one pushed value above the caller's stack, so from the
empty initial stack the driver's single final pop leaves the stack empty
with the result in x0. -/
theorem c9_stack_discipline :
    (∀ (n : Node) (is : List Instr) (s : MState), gen n = some is →
      ∃ s' v, run is s = some s' ∧ s'.stack = v :: s.stack) ∧
    (∀ (n : Node) (is : List Instr), gen n = some is →
      ∃ s' v, run (is ++ [Instr.popX0]) initState = some s' ∧ s'.x0 = v ∧ s'.stack = []) := by
  constructor
  · intro n is s h
    obtain ⟨s', v, hrun, hst, -⟩ := gen_run n is h s
    exact ⟨s', v, hrun, hst⟩
  · intro n is h
    obtain ⟨s', v, hrun, hst, -⟩ := gen_run n is h initState
    have hst2 : s'.stack = [v] := hst
    refine ⟨{ s' with x0 := v, stack := [] }, v, ?_, rfl, rfl⟩
    rw [run_append, hrun, Option.some_bind]
    simp [run, step, hst2]

/-- Witness for C9 at the tree Num 5. -/
theorem c9_witness :
    ∃ s' v, run ([Instr.mov2 5, Instr.pushX2] ++ [Instr.popX0]) initState = some s' ∧
      s'.x0 = v ∧ s'.stack = [] :=
  c9_stack_discipline.2 (new_num 5) _ rfl

/-- C2: whenever the token list parses to a top-level expression with
any remaining tokens, the driver succeeds with exit code 0 and prints
exactly the assembly of that leading expression, never examining the
rest; concretely the input 1 2 compiles to the code for 1 alone. -/
theorem c2_trailing_tokens_ignored :
    (∀ (s : String) (toks : List Token) (node : Node) (rest : List Token),
        tokenize s = .ok toks → expr (fuelFor toks) toks = .ok (node, rest) →
        ∃ is, gen node = some is ∧ driverRun s = (0, progText is, "")) ∧
    driverRun "1 2" = (0,
      ".globl main\nmain:\n  mov x2, #1\n  str x2, [sp, -16]!\n  ldr x0, [sp], 16\n  ret\n",
      "") := by
  constructor
  · intro s toks node rest htok hexpr
    have hwf := (parsers_wf (fuelFor toks)).1 toks node rest hexpr
    obtain ⟨is, hgen⟩ := wf_gen_total node hwf
    have hcn : compileNode s = .ok node := by
      simp only [compileNode]
      rw [htok]
      dsimp only
      rw [hexpr]
    refine ⟨is, hgen, ?_⟩
    simp only [driverRun]
    rw [hcn]
    dsimp only
    rw [hgen]
  · have h := tokenize_one_two
    simp only [driverRun, compileNode, h]
    decide

/-- Witness for C2 on the input 1 2: the second number is trailing. -/
theorem c2_witness :
    ∃ is, gen (new_num 1) = some is ∧ driverRun "1 2" = (0, progText is, "") :=
  c2_trailing_tokens_ignored.1 "1 2"
    [⟨TokenKind.TK_NUM, 1, "1", 1, 0⟩, ⟨TokenKind.TK_NUM, 2, "2", 1, 2⟩,
     ⟨TokenKind.TK_EOF, 0, "", 0, 3⟩]
    (new_num 1)
    [⟨TokenKind.TK_NUM, 2, "2", 1, 2⟩, ⟨TokenKind.TK_EOF, 0, "", 0, 3⟩]
    tokenize_one_two rfl

/-- C3 counterexample: for the input a the program exits 1 with a
lexical error at offset 0, yet its stderr is not the claimed rendering
with exactly pos leading spaces; the %*s padding of " " prints one
space even for width 0, so the caret lands under offset 1. -/
theorem c3_counterexample :
    driverRun "a" = (1, "", "a\n ^ " ++ lexMsg ++ "\n") ∧
    ("a\n ^ " ++ lexMsg ++ "\n" ≠ "a" ++ "\n" ++ spaces 0 ++ "^ " ++ lexMsg ++ "\n") := by
  constructor
  · have h := tokenize_letter
    simp only [driverRun, compileNode, h]
    decide
  · decide

/-- C3 amended: on every fatal diagnostic the program exits 1, prints
nothing on stdout, and prints on stderr the input, a caret line with
max(pos, 1) leading spaces, and the message; every exit-1 run arises
from such a diagnostic rendered by error_at; input a fails with the
lexical error at offset 0, whose caret line starts with one space. -/
theorem c3_diagnostics_amended :
    (∀ (s : String) (d : Diag), compileNode s = .error d →
      driverRun s = (1, "", s ++ "\n" ++ spaces (max d.pos 1) ++ "^ " ++ d.msg ++ "\n")) ∧
    (∀ (s : String) (c : Nat) (o e : String), driverRun s = (c, o, e) → c = 1 →
      o = "" ∧ ∃ d, compileNode s = .error d ∧ e = error_at s d.pos d.msg) ∧
    compileNode "a" = .error ⟨0, lexMsg⟩ ∧
    driverRun "a" = (1, "", "a" ++ "\n" ++ spaces 1 ++ "^ " ++ lexMsg ++ "\n") := by
  refine ⟨?_, ?_, ?_, ?_⟩
  · intro s d h
    simp only [driverRun]
    rw [h]
    dsimp only
    rw [error_at_spaces]
  · intro s c o e h hc
    cases hcn : compileNode s with
    | error d =>
      simp only [driverRun] at h
      rw [hcn] at h
      dsimp only at h
      cases h
      exact ⟨rfl, d, rfl, rfl⟩
    | ok node =>
      obtain ⟨is, hgen⟩ := wf_gen_total node (compileNode_ok_wf s node hcn)
      simp only [driverRun] at h
      rw [hcn] at h
      dsimp only at h
      rw [hgen] at h
      dsimp only at h
      cases h
      exact absurd hc (by decide)
  · have h := tokenize_letter
    simp only [compileNode, h]
  · have h := tokenize_letter
    simp only [driverRun, compileNode, h]
    decide

/-- Witness for the amended C3 at the input a. -/
theorem c3_witness :
    driverRun "a" = (1, "", "a" ++ "\n" ++ spaces (max 0 1) ++ "^ " ++ lexMsg ++ "\n") :=
  c3_diagnostics_amended.1 "a" ⟨0, lexMsg⟩ c3_diagnostics_amended.2.2.1

/-- C4: the relational rule stores a greater-than comparison with the
operands swapped: parsing a > b yields exactly the node Lt(b, a) that
parsing b < a yields, and a >= b yields the Le(b, a) of b <= a. -/
theorem c4_gt_normalization :
    ∀ (g : Nat) (tsa tsb tse : List Token) (a b : Node) (tgt tlt tge tle : Token),
      isOpTok tgt ">" → isOpTok tlt "<" → isOpTok tge ">=" → isOpTok tle "<=" →
      (consume "<" tse).1 = false → (consume "<=" tse).1 = false →
      (consume ">" tse).1 = false → (consume ">=" tse).1 = false →
      ((add (g + 1 + 1) (tsa ++ tgt :: (tsb ++ tse)) = .ok (a, tgt :: (tsb ++ tse)) →
        add (g + 1) (tsb ++ tse) = .ok (b, tse) →
        relational (g + 1 + 1 + 1) (tsa ++ tgt :: (tsb ++ tse)) =
          .ok (new_binary NodeKind.ND_LT b a, tse)) ∧
       (add (g + 1 + 1) (tsb ++ tlt :: (tsa ++ tse)) = .ok (b, tlt :: (tsa ++ tse)) →
        add (g + 1) (tsa ++ tse) = .ok (a, tse) →
        relational (g + 1 + 1 + 1) (tsb ++ tlt :: (tsa ++ tse)) =
          .ok (new_binary NodeKind.ND_LT b a, tse)) ∧
       (add (g + 1 + 1) (tsa ++ tge :: (tsb ++ tse)) = .ok (a, tge :: (tsb ++ tse)) →
        add (g + 1) (tsb ++ tse) = .ok (b, tse) →
        relational (g + 1 + 1 + 1) (tsa ++ tge :: (tsb ++ tse)) =
          .ok (new_binary NodeKind.ND_LE b a, tse)) ∧
       (add (g + 1 + 1) (tsb ++ tle :: (tsa ++ tse)) = .ok (b, tle :: (tsa ++ tse)) →
        add (g + 1) (tsa ++ tse) = .ok (a, tse) →
        relational (g + 1 + 1 + 1) (tsb ++ tle :: (tsa ++ tse)) =
          .ok (new_binary NodeKind.ND_LE b a, tse))) := by
  intro g tsa tsb tse a b tgt tlt tge tle hgt hlt hge hle hs1 hs2 hs3 hs4
  refine ⟨?_, ?_, ?_, ?_⟩
  · intro h1 h2
    simp only [relational]
    rw [h1]
    dsimp only
    simp only [relationalLoop]
    rw [consume_neg_str "<" tgt _ (by rw [hgt.2.2]; decide)]
    dsimp only
    rw [consume_neg_str "<=" tgt _ (by rw [hgt.2.2]; decide)]
    dsimp only
    rw [consume_pos ">" tgt _ hgt]
    dsimp only
    rw [h2]
    dsimp only
    exact relationalLoop_stop g _ tse hs1 hs2 hs3 hs4
  · intro h1 h2
    simp only [relational]
    rw [h1]
    dsimp only
    simp only [relationalLoop]
    rw [consume_pos "<" tlt _ hlt]
    dsimp only
    rw [h2]
    dsimp only
    exact relationalLoop_stop g _ tse hs1 hs2 hs3 hs4
  · intro h1 h2
    simp only [relational]
    rw [h1]
    dsimp only
    simp only [relationalLoop]
    rw [consume_neg_str "<" tge _ (by rw [hge.2.2]; decide)]
    dsimp only
    rw [consume_neg_str "<=" tge _ (by rw [hge.2.2]; decide)]
    dsimp only
    rw [consume_neg_str ">" tge _ (by rw [hge.2.2]; decide)]
    dsimp only
    rw [consume_pos ">=" tge _ hge]
    dsimp only
    rw [h2]
    dsimp only
    exact relationalLoop_stop g _ tse hs1 hs2 hs3 hs4
  · intro h1 h2
    simp only [relational]
    rw [h1]
    dsimp only
    simp only [relationalLoop]
    rw [consume_neg_str "<" tle _ (by rw [hle.2.2]; decide)]
    dsimp only
    rw [consume_pos "<=" tle _ hle]
    dsimp only
    rw [h2]
    dsimp only
    exact relationalLoop_stop g _ tse hs1 hs2 hs3 hs4

/-- Witness for C4: 1 > 2 and 2 < 1 parse to the same tree Lt(2, 1). -/
theorem c4_witness :
    relational 6 [⟨TokenKind.TK_NUM, 1, "1", 1, 0⟩, ⟨TokenKind.TK_RESERVED, 0, ">", 1, 1⟩,
        ⟨TokenKind.TK_NUM, 2, "2", 1, 2⟩, ⟨TokenKind.TK_EOF, 0, "", 0, 3⟩] =
      .ok (new_binary NodeKind.ND_LT (new_num 2) (new_num 1),
        [⟨TokenKind.TK_EOF, 0, "", 0, 3⟩]) ∧
    relational 6 [⟨TokenKind.TK_NUM, 2, "2", 1, 2⟩, ⟨TokenKind.TK_RESERVED, 0, "<", 1, 1⟩,
        ⟨TokenKind.TK_NUM, 1, "1", 1, 0⟩, ⟨TokenKind.TK_EOF, 0, "", 0, 3⟩] =
      .ok (new_binary NodeKind.ND_LT (new_num 2) (new_num 1),
        [⟨TokenKind.TK_EOF, 0, "", 0, 3⟩]) := by
  have h := c4_gt_normalization 3
    [⟨TokenKind.TK_NUM, 1, "1", 1, 0⟩] [⟨TokenKind.TK_NUM, 2, "2", 1, 2⟩]
    [⟨TokenKind.TK_EOF, 0, "", 0, 3⟩] (new_num 1) (new_num 2)
    ⟨TokenKind.TK_RESERVED, 0, ">", 1, 1⟩ ⟨TokenKind.TK_RESERVED, 0, "<", 1, 1⟩
    ⟨TokenKind.TK_RESERVED, 0, ">=", 2, 1⟩ ⟨TokenKind.TK_RESERVED, 0, "<=", 2, 1⟩
    ⟨rfl, rfl, rfl⟩ ⟨rfl, rfl, rfl⟩ ⟨rfl, rfl, rfl⟩ ⟨rfl, rfl, rfl⟩
    (by decide) (by decide) (by decide) (by decide)
  exact ⟨h.1 rfl rfl, h.2.1 rfl rfl⟩

/-- C7: every tree the parser returns satisfies the leaf invariant (only
ND_NUM nodes lack children, all other nodes carry both), a unary plus
parses to its operand's tree unchanged, and unary minus parses -x as
Sub(Num(0), x). -/
theorem c7_only_num_leaves :
    (∀ (f : Nat) (ts : List Token) (n : Node) (r : List Token),
        expr f ts = .ok (n, r) → wfB n = true) ∧
    (∀ (f : Nat) (ts ts1 : List Token), consume "+" ts = (true, ts1) →
        unary (f + 1) ts = primary f ts1) ∧
    (∀ (f : Nat) (ts ts1 : List Token) (p : Node) (r : List Token),
        consume "-" ts = (true, ts1) → primary f ts1 = .ok (p, r) →
        unary (f + 1) ts = .ok (new_binary NodeKind.ND_SUB (new_num 0) p, r)) := by
  refine ⟨?_, ?_, ?_⟩
  · intro f ts n r h
    exact (parsers_wf f).1 ts n r h
  · intro f ts ts1 hc
    simp only [unary]
    rw [hc]
  · intro f ts ts1 p r hc hp
    obtain ⟨t, hts, hop⟩ := consume_true_elim "-" ts ts1 hc
    subst hts
    have hplus : consume "+" (t :: ts1) = (false, t :: ts1) :=
      consume_neg_str "+" t ts1 (by rw [hop.2.2]; decide)
    simp only [unary]
    rw [hplus]
    dsimp only
    rw [hc]
    dsimp only
    rw [hp]

/-- Witness for C7 at the single-number input 42. -/
theorem c7_witness : wfB (new_num 42) = true :=
  c7_only_num_leaves.1 32
    [⟨TokenKind.TK_NUM, 42, "42", 2, 0⟩, ⟨TokenKind.TK_EOF, 0, "", 0, 2⟩]
    (new_num 42) [⟨TokenKind.TK_EOF, 0, "", 0, 2⟩] rfl

/-- C8: tokenize is a pure function of the input string, so two runs on
the same input yield structurally identical token sequences (all of
kind, value, lexeme, length and offset agree). -/
theorem c8_tokenize_deterministic :
    ∀ (s : String) (t1 t2 : List Token),
      tokenize s = .ok t1 → tokenize s = .ok t2 → t1 = t2 := by
  intro s t1 t2 h1 h2
  rw [h1] at h2
  cases h2
  rfl

/-- Witness for C8 on the input 1+2. -/
theorem c8_witness :
    ([⟨TokenKind.TK_NUM, 1, "1", 1, 0⟩, ⟨TokenKind.TK_RESERVED, 0, "+", 1, 1⟩,
      ⟨TokenKind.TK_NUM, 2, "2", 1, 2⟩, ⟨TokenKind.TK_EOF, 0, "", 0, 3⟩] : List Token) =
    [⟨TokenKind.TK_NUM, 1, "1", 1, 0⟩, ⟨TokenKind.TK_RESERVED, 0, "+", 1, 1⟩,
     ⟨TokenKind.TK_NUM, 2, "2", 1, 2⟩, ⟨TokenKind.TK_EOF, 0, "", 0, 3⟩] :=
  c8_tokenize_deterministic "1+2" _ _ tokenize_1plus2 tokenize_1plus2

/-- C10: consume returns true and advances the cursor by exactly one
token precisely when the head token is a reserved token whose lexeme is
op; on a false return the cursor is returned unchanged. -/
theorem c10_consume_frame :
    ∀ (op : String) (ts : List Token),
      ((consume op ts).1 = true ↔
        ∃ t rest, ts = t :: rest ∧ t.kind = TokenKind.TK_RESERVED ∧
          op.length = t.len ∧ t.str = op ∧ (consume op ts).2 = rest) ∧
      ((consume op ts).1 = false → (consume op ts).2 = ts) := by
  intro op ts
  cases ts with
  | nil =>
    constructor
    · constructor
      · intro h
        simp [consume] at h
      · rintro ⟨t, rest, h, -⟩
        cases h
    · intro _
      rfl
  | cons t rest =>
    by_cases hc : t.kind = TokenKind.TK_RESERVED ∧ op.length = t.len ∧ t.str = op
    · have hcon : consume op (t :: rest) = (true, rest) := consume_pos op t rest hc
      rw [hcon]
      constructor
      · constructor
        · intro _
          exact ⟨t, rest, rfl, hc.1, hc.2.1, hc.2.2, rfl⟩
        · intro _
          rfl
      · intro h
        simp at h
    · have hcon : consume op (t :: rest) = (false, t :: rest) := by
        simp only [consume]
        rw [if_neg hc]
      rw [hcon]
      constructor
      · constructor
        · intro h
          simp at h
        · rintro ⟨t2, rest2, heq, hk, hl, hs, -⟩
          cases heq
          exact absurd ⟨hk, hl, hs⟩ hc
      · intro _
        rfl

/-- Witness for C10: a failed match leaves the cursor unchanged. -/
theorem c10_witness :
    (consume "*" [⟨TokenKind.TK_RESERVED, 0, "+", 1, 0⟩]).2 =
      [⟨TokenKind.TK_RESERVED, 0, "+", 1, 0⟩] :=
  (c10_consume_frame "*" [⟨TokenKind.TK_RESERVED, 0, "+", 1, 0⟩]).2 (by decide)

/-- C5: tokenize is total: on every input string it either succeeds with
a token sequence ending in the TK_EOF sentinel positioned at the end of
the input, or fails with the lexical-error diagnostic at the offset of a
scanned character that is not whitespace, not a digit, and starts no
operator token there. -/
theorem c5_tokenize_total :
    ∀ s : String,
      (∃ toks last, tokenize s = .ok toks ∧ toks.getLast? = some last ∧
        last.kind = TokenKind.TK_EOF ∧ last.pos = s.length ∧ last.len = 0) ∨
      (∃ i, tokenize s = .error ⟨i, lexMsg⟩ ∧ i < s.length ∧
        badStartB (s.toList.drop i) = true) := by
  intro s
  rcases tokenizeAux_cases s.toList 0 with ⟨toks, last, hok, hl, hk, hp, hlen⟩ |
    ⟨i, herr, hi, hbad⟩
  · left
    refine ⟨toks, last, hok, hl, hk, ?_, hlen⟩
    rw [hp, Nat.zero_add]
    rfl
  · right
    simp only [Nat.zero_add] at herr
    exact ⟨i, herr, hi, hbad⟩

/-- C6: the lexer tries two-character operators before single-character
ones, so a remaining input starting with ==, !=, <= or >= always lexes
to one two-character reserved token; a leading digit always lexes to one
TK_NUM token covering the maximal digit run, valued as the base-10
reading of that run; the character after the run is never a digit; and
1<=2 lexes as Number 1, <=, Number 2. -/
theorem c6_two_char_before_single :
    (∀ (c1 c2 : Char) (cs : List Char) (pos : Nat), twoCharB c1 c2 = true →
      tokenizeAux (c1 :: c2 :: cs) pos =
        Except.map
          (fun ts => ⟨TokenKind.TK_RESERVED, 0, String.mk [c1, c2], 2, pos⟩ :: ts)
          (tokenizeAux cs (pos + 2))) ∧
    (∀ (c : Char) (cs : List Char) (pos : Nat), isdigitC c = true →
      tokenizeAux (c :: cs) pos =
        Except.map
          (fun ts => ⟨TokenKind.TK_NUM, digitsVal (c :: cs.takeWhile isdigitC),
              String.mk (c :: cs.takeWhile isdigitC),
              (c :: cs.takeWhile isdigitC).length, pos⟩ :: ts)
          (tokenizeAux (cs.dropWhile isdigitC)
            (pos + (c :: cs.takeWhile isdigitC).length))) ∧
    (∀ (cs : List Char) (c2 : Char),
      (cs.dropWhile isdigitC).head? = some c2 → isdigitC c2 = false) ∧
    tokenize "1<=2" = .ok
      [⟨TokenKind.TK_NUM, 1, "1", 1, 0⟩, ⟨TokenKind.TK_RESERVED, 0, "<=", 2, 1⟩,
       ⟨TokenKind.TK_NUM, 2, "2", 1, 3⟩, ⟨TokenKind.TK_EOF, 0, "", 0, 4⟩] := by
  refine ⟨?_, ?_, ?_, tokenize_1le2⟩
  · intro c1 c2 cs pos h
    simp only [twoCharB, Bool.or_eq_true, Bool.and_eq_true, decide_eq_true_eq] at h
    rcases h with ((⟨h1, h2⟩ | ⟨h1, h2⟩) | ⟨h1, h2⟩) | ⟨h1, h2⟩ <;> subst h1 <;> subst h2 <;>
      cases hrec : tokenizeAux cs (pos + 2) with
      | ok ts =>
        simp [tokenizeAux, isspaceC, startswith, List.isPrefixOf, Except.map, hrec]
      | error d =>
        simp [tokenizeAux, isspaceC, startswith, List.isPrefixOf, Except.map, hrec]
  · intro c cs pos h
    obtain ⟨hsp, hop, he, hx, hl, hg⟩ := digit_guards c h
    have htwo : (startswith (c :: cs) ['=', '='] || startswith (c :: cs) ['!', '='] ||
        startswith (c :: cs) ['<', '='] || startswith (c :: cs) ['>', '=']) = false := by
      simp [startswith, List.isPrefixOf, he, hx, hl, hg]
    cases hrec : tokenizeAux (cs.dropWhile isdigitC)
        (pos + (c :: cs.takeWhile isdigitC).length) with
    | ok ts =>
      simp only [tokenizeAux]
      rw [if_neg (by simp [hsp]), if_neg (by simp [htwo]), if_neg (by simp [hop]),
        if_pos h, hrec]
      rfl
    | error d =>
      simp only [tokenizeAux]
      rw [if_neg (by simp [hsp]), if_neg (by simp [htwo]), if_neg (by simp [hop]),
        if_pos h, hrec]
      rfl
  · intro cs c2 h
    exact dropWhile_head_not cs c2 h

/-- Witness for C6: the input fragment starting <=2 lexes to the single
two-character token for the comparison, not to two one-character ones. -/
theorem c6_witness :
    tokenizeAux ['<', '=', '2'] 1 =
      Except.map
        (fun ts => ⟨TokenKind.TK_RESERVED, 0, String.mk ['<', '='], 2, 1⟩ :: ts)
        (tokenizeAux ['2'] 3) :=
  c6_two_char_before_single.1 '<' '=' ['2'] 1 (by decide)

end NineCC
